import Mathlib

/-!
Verification of the GenAgent3D episodic-memory core against its specification.

The development shallowly embeds `core/memory.py` (class `SceneMemory`) and the
reflection / orchestration-decision logic of `main.py`.  Python dictionaries
holding optional keys are modelled as structures of `Option` fields; the keys
actually probed by the code (`score`/`overall_score`, `suggestion`/`suggestions`,
`objects`/`style`/`relationships`, `type`) are the fields.  Python floats are
modelled as exact rationals.  The FAISS `IndexFlatL2` is modelled by its
contract: a flat store of embeddings queried for the `r` nearest neighbours by
squared Euclidean distance, returned in ascending-distance order.
-/

/-- Embeddings are fixed-length rational vectors. -/
abbrev Embedding := List ℚ

/-- Fixed embedding dimension (`self.dimension = 100` in `SceneMemory.__init__`). -/
def dimension : Nat := 100

/-- Embedding of `SceneMemory._simple_embed`: starts from a zero vector of length
`dimension` and sets component `i` to `ord(text[i]) / 255.0` for every character
position `i < dimension`; characters past `dimension` are ignored. -/
def simple_embed (text : String) : Embedding :=
  (List.range dimension).map (fun i =>
    if h : i < text.data.length then ((text.data.get ⟨i, h⟩).toNat : ℚ) / 255 else 0)

/-- A plan object or relationship entry: a dictionary whose `type` key the
pattern analysis reads (absent key modelled as `none`). -/
structure PlanItem where
  type : Option String
deriving DecidableEq, Repr

/-- The `scene_plan` payload as introspected by `analyze_patterns`: only the
`objects`, `style` and `relationships` keys are read, each possibly absent. -/
structure ScenePlan where
  objects : Option (List PlanItem)
  style : Option String
  relationships : Option (List PlanItem)
deriving DecidableEq, Repr

/-- The `verification_result` payload as introspected by `reflect_on_memory`:
the keys `score`, `overall_score`, `suggestion`, `suggestions`, each possibly
absent.  Scores are integers (`int(score_match.group(1))` in the verifier). -/
structure VerificationResult where
  score : Option ℤ
  overall_score : Option ℤ
  suggestion : Option String
  suggestions : Option String
deriving DecidableEq, Repr

/-- One stored memory record, as built in `SceneMemory.add_memory`. -/
structure MemoryEntry where
  instruction : String
  scene_plan : ScenePlan
  verification_result : VerificationResult
deriving DecidableEq, Repr

/-- The mutable state of a `SceneMemory` instance together with the durable
file `data/memories.json` (`disk`).  `indexEntries` is the content of the FAISS
index in insertion order. -/
structure SceneMemoryState where
  max_history : Nat
  similarity_threshold : ℚ
  memories : List MemoryEntry
  indexEntries : List Embedding
  disk : List MemoryEntry
deriving DecidableEq, Repr

/-- C9: `simple_embed` is deterministic (it is a function of the text alone) and
always returns a vector of exactly `dimension = 100` components; component `i`
is the character code of position `i` divided by 255 when `i` is below both the
text length and the dimension, and `0` otherwise; characters past position 100
are ignored (embedding the 100-character truncation gives the same vector); and
every component lies in the bounded range `[0, 1114111/255]`. -/
theorem simple_embed_spec (text : String) :
    (simple_embed text).length = 100 ∧
    (∀ i : ℕ, (simple_embed text).getD i 0 =
      if h : i < 100 ∧ i < text.data.length then
        ((text.data.get ⟨i, h.2⟩).toNat : ℚ) / 255 else 0) ∧
    simple_embed ⟨text.data.take 100⟩ = simple_embed text ∧
    (∀ i : ℕ, 0 ≤ (simple_embed text).getD i 0 ∧
      (simple_embed text).getD i 0 ≤ 1114111 / 255) := by
  refine ⟨by simp [simple_embed, dimension], ?_, ?_, ?_⟩
  · intro i
    unfold simple_embed
    by_cases hi : i < 100
    · rw [List.getD_eq_getElem?_getD]
      rw [List.getElem?_map, List.getElem?_range (by simpa [dimension] using hi)]
      by_cases hlen : i < text.data.length
      · simp [hlen, hi]
      · simp [hlen, hi]
    · rw [List.getD_eq_getElem?_getD]
      have : (List.range dimension).length ≤ i := by simpa [dimension] using Nat.le_of_not_lt hi
      rw [List.getElem?_map, List.getElem?_eq_none this]
      simp [hi]
  · unfold simple_embed
    apply List.map_congr_left
    intro i hi
    have hi' : i < 100 := by simpa [dimension] using List.mem_range.mp hi
    by_cases hlen : i < text.data.length
    · have h1 : i < (text.data.take 100).length := by
        simp only [List.length_take]
        exact lt_min hi' hlen
      have h2 : (text.data.take 100).get ⟨i, h1⟩ = text.data.get ⟨i, by omega⟩ := by
        simp [List.get_eq_getElem, List.getElem_take]
      simp only [String.data] at *
      rw [dif_pos h1, dif_pos hlen, h2]
    · have h1 : ¬ i < (text.data.take 100).length := by
        simp only [List.length_take]
        omega
      rw [dif_neg h1, dif_neg hlen]
  · intro i
    by_cases hmem : i < (simple_embed text).length
    · constructor
      · have : (simple_embed text).getD i 0 = (simple_embed text).get ⟨i, hmem⟩ := by
          rw [List.getD_eq_getElem?_getD, List.getElem?_eq_getElem hmem]
          rfl
        rw [this]
        have hx := List.get_mem (simple_embed text) i hmem
        revert hx
        generalize (simple_embed text).get ⟨i, hmem⟩ = x
        intro hx
        obtain ⟨j, hj, rfl⟩ := List.mem_map.mp hx
        by_cases hlen : j < text.data.length
        · rw [dif_pos hlen]
          positivity
        · rw [dif_neg hlen]
      · have : (simple_embed text).getD i 0 = (simple_embed text).get ⟨i, hmem⟩ := by
          rw [List.getD_eq_getElem?_getD, List.getElem?_eq_getElem hmem]
          rfl
        rw [this]
        have hx := List.get_mem (simple_embed text) i hmem
        revert hx
        generalize (simple_embed text).get ⟨i, hmem⟩ = x
        intro hx
        obtain ⟨j, hj, rfl⟩ := List.mem_map.mp hx
        by_cases hlen : j < text.data.length
        · rw [dif_pos hlen]
          have hcode : ((text.data.get ⟨j, hlen⟩).toNat : ℚ) ≤ 1114111 := by
            have hlt : (text.data.get ⟨j, hlen⟩).toNat < 1114112 := by
              rcases (text.data.get ⟨j, hlen⟩).valid with h | h
              · have : (text.data.get ⟨j, hlen⟩).toNat < 55296 := h
                omega
              · exact h.2
            exact_mod_cast Nat.le_of_lt_succ hlt
          linarith [hcode]
        · rw [dif_neg hlen]
          positivity
    · rw [List.getD_eq_getElem?_getD, List.getElem?_eq_none (Nat.le_of_not_lt hmem)]
      norm_num

/-- Python slice `l[-m:]` for a natural `m`: when `m = 0` it is the whole list
(`l[-0:]` is `l[0:]`), otherwise the last `min m l.length` elements. -/
def pySliceLast {α : Type*} (m : Nat) (l : List α) : List α :=
  if m = 0 then l else l.drop (l.length - m)

/-- The record dictionary built at the top of `SceneMemory.add_memory`. -/
def mkMemoryEntry (instruction : String) (scene_plan : ScenePlan)
    (verification_result : VerificationResult) : MemoryEntry :=
  ⟨instruction, scene_plan, verification_result⟩

/-- `SceneMemory.add_memory`: appends the new record to `memories`, adds its
embedding to the FAISS index, then — if `len(memories) > max_history` — keeps
`memories[-max_history:]` and rebuilds the index over the retained records, and
finally saves the (possibly trimmed) `memories` list to disk via
`_save_memories`. -/
def add_memory (s : SceneMemoryState) (instruction : String) (scene_plan : ScenePlan)
    (verification_result : VerificationResult) : SceneMemoryState :=
  let memory := mkMemoryEntry instruction scene_plan verification_result
  let memories1 := s.memories ++ [memory]
  let index1 := s.indexEntries ++ [simple_embed instruction]
  if s.max_history < memories1.length then
    let kept := pySliceLast s.max_history memories1
    { s with memories := kept,
             indexEntries := kept.map (fun m => simple_embed m.instruction),
             disk := kept }
  else
    { s with memories := memories1, indexEntries := index1, disk := memories1 }

/-- One `add_memory` call driven by a request triple, for iterating sequences
of insertions. -/
def applyAdd (s : SceneMemoryState) (t : String × ScenePlan × VerificationResult) :
    SceneMemoryState :=
  add_memory s t.1 t.2.1 t.2.2

lemma add_memory_max_history (s : SceneMemoryState) (instruction : String)
    (scene_plan : ScenePlan) (verification_result : VerificationResult) :
    (add_memory s instruction scene_plan verification_result).max_history = s.max_history := by
  by_cases h : s.max_history < s.memories.length + 1 <;> simp [add_memory, h]

lemma foldl_applyAdd_max_history (ops : List (String × ScenePlan × VerificationResult)) :
    ∀ s : SceneMemoryState, (List.foldl applyAdd s ops).max_history = s.max_history := by
  induction ops with
  | nil => intro s; rfl
  | cons op rest ih =>
    intro s
    simp only [List.foldl_cons]
    rw [ih (applyAdd s op)]
    exact add_memory_max_history s op.1 op.2.1 op.2.2

lemma add_memory_length_le (s : SceneMemoryState) (hpos : 1 ≤ s.max_history)
    (instruction : String) (scene_plan : ScenePlan)
    (verification_result : VerificationResult) :
    (add_memory s instruction scene_plan verification_result).memories.length ≤ s.max_history := by
  unfold add_memory
  by_cases h : s.max_history < (s.memories ++ [mkMemoryEntry instruction scene_plan verification_result]).length
  · simp only [h, if_true]
    have hmz : s.max_history ≠ 0 := by omega
    simp only [pySliceLast, hmz, if_false, List.length_drop]
    omega
  · simp only [h, if_false]
    simp only [List.length_append, List.length_singleton] at h ⊢
    omega

/-- C1 (amended: `max_history ≥ 1`): for every store with retention bound at
least 1, after any `add_memory` call the number of stored records is at most
`max_history` — hence this holds after each `add` of any sequence of adds — and
when the add triggers eviction the retained records are exactly the
most-recently-inserted `max_history` entries in original relative order (the
suffix of the appended list obtained by dropping the oldest
`count - max_history` entries). -/
theorem add_memory_history_invariant (s : SceneMemoryState) (hpos : 1 ≤ s.max_history) :
    (∀ (instruction : String) (scene_plan : ScenePlan)
        (verification_result : VerificationResult),
      (add_memory s instruction scene_plan verification_result).memories.length ≤ s.max_history ∧
      (s.max_history < s.memories.length + 1 →
        (add_memory s instruction scene_plan verification_result).memories =
          (s.memories ++ [mkMemoryEntry instruction scene_plan verification_result]).drop
            (s.memories.length + 1 - s.max_history))) ∧
    (∀ (ops : List (String × ScenePlan × VerificationResult)) (i : Nat), i < ops.length →
      (List.foldl applyAdd s (ops.take (i + 1))).memories.length ≤ s.max_history) := by
  constructor
  · intro instruction scene_plan verification_result
    refine ⟨add_memory_length_le s hpos instruction scene_plan verification_result, ?_⟩
    intro hover
    unfold add_memory
    have h : s.max_history <
        (s.memories ++ [mkMemoryEntry instruction scene_plan verification_result]).length := by
      simpa using hover
    simp only [h, if_true]
    have hmz : s.max_history ≠ 0 := by omega
    simp [pySliceLast, hmz]
  · intro ops i hi
    have htake : ops.take (i + 1) = ops.take i ++ [ops[i]] := by
      rw [List.take_succ, List.getElem?_eq_getElem hi]
      rfl
    rw [htake, List.foldl_concat]
    have hmh : (List.foldl applyAdd s (ops.take i)).max_history = s.max_history :=
      foldl_applyAdd_max_history (ops.take i) s
    have := add_memory_length_le (List.foldl applyAdd s (ops.take i))
      (by rw [hmh]; exact hpos) (ops[i]).1 (ops[i]).2.1 (ops[i]).2.2
    rw [hmh] at this
    exact this

/-- Concrete empty scene-plan payload (`{"reasoning": ...}` has none of the
introspected keys). -/
def planA : ScenePlan := ⟨none, none, none⟩

/-- Concrete empty verification payload. -/
def vrA : VerificationResult := ⟨none, none, none, none⟩

/-- A fresh store as built by `SceneMemory.__init__` with no persisted file. -/
def emptyStore (mh : Nat) (thr : ℚ) : SceneMemoryState := ⟨mh, thr, [], [], []⟩

/-- A store with retention bound 1 already holding one record. -/
def store1 : SceneMemoryState :=
  ⟨1, 8 / 10, [mkMemoryEntry "a" planA vrA], [simple_embed "a"], [mkMemoryEntry "a" planA vrA]⟩

/-- C1 counterexample: with `max_history = 0` the Python trim `memories[-0:]`
keeps the whole list, so after one `add_memory` the store holds 1 > 0 records —
the claimed bound fails for a store configured with retention bound 0. -/
theorem add_memory_zero_history_counterexample :
    ¬ ((add_memory (emptyStore 0 (8 / 10)) "a" planA vrA).memories.length ≤ 0) := by
  have h : (add_memory (emptyStore 0 (8 / 10)) "a" planA vrA).memories.length = 1 := rfl
  omega

/-- C1 witness: instantiating the invariant at a concrete store with
`max_history = 1` holding one record; the second add evicts the older record. -/
theorem add_memory_history_invariant_witness :
    (add_memory store1 "b" planA vrA).memories.length ≤ 1 ∧
    (add_memory store1 "b" planA vrA).memories =
      (store1.memories ++ [mkMemoryEntry "b" planA vrA]).drop
        (store1.memories.length + 1 - 1) :=
  ⟨((add_memory_history_invariant store1 (by decide)).1 "b" planA vrA).1,
   ((add_memory_history_invariant store1 (by decide)).1 "b" planA vrA).2 (by decide)⟩

/-- C3 (amended: persistence happens after eviction, not before): `add_memory`
creates one record, appends it to the in-memory list, inserts its embedding
into the index, then — only when the list now exceeds `max_history` — trims to
`memories[-max_history:]` and rebuilds the index over the retained records, and
only then persists; so durable storage always ends up equal to the final
(post-eviction) in-memory record set, and the configuration fields are
unchanged. -/
theorem add_memory_persist_spec (s : SceneMemoryState) (instruction : String)
    (scene_plan : ScenePlan) (verification_result : VerificationResult) :
    (add_memory s instruction scene_plan verification_result).disk =
      (add_memory s instruction scene_plan verification_result).memories ∧
    (add_memory s instruction scene_plan verification_result).memories =
      (let appended := s.memories ++ [mkMemoryEntry instruction scene_plan verification_result]
       if s.max_history < appended.length then pySliceLast s.max_history appended
       else appended) ∧
    (add_memory s instruction scene_plan verification_result).indexEntries =
      (let appended := s.memories ++ [mkMemoryEntry instruction scene_plan verification_result]
       if s.max_history < appended.length then
         (pySliceLast s.max_history appended).map (fun m => simple_embed m.instruction)
       else s.indexEntries ++ [simple_embed instruction]) ∧
    (add_memory s instruction scene_plan verification_result).max_history = s.max_history ∧
    (add_memory s instruction scene_plan verification_result).similarity_threshold =
      s.similarity_threshold := by
  by_cases h : s.max_history < s.memories.length + 1 <;> simp [add_memory, h]

/-- C3 counterexample: the claim's persist-before-evict order would leave both
records on disk after an eviction-triggering add; the code persists the
post-eviction set, so disk differs from the appended pre-eviction set. -/
theorem add_memory_persist_order_counterexample :
    (add_memory store1 "b" planA vrA).disk ≠
      store1.memories ++ [mkMemoryEntry "b" planA vrA] := by
  decide

/-- Squared Euclidean distance between two embeddings, the metric used by
`faiss.IndexFlatL2` (all embeddings handled here have length `dimension`). -/
def sqDist (a b : Embedding) : ℚ :=
  ((a.zip b).map (fun p => (p.1 - p.2) ^ 2)).sum

/-- Contract of `faiss.IndexFlatL2.search` for one query: the `r` nearest
stored entries by squared Euclidean distance, as `(distance, position)` pairs
in ascending-distance order. -/
def knnSearch (query : Embedding) (r : Nat) (entries : List Embedding) :
    List (ℚ × Nat) :=
  ((entries.enum.map (fun p => (sqDist query p.2, p.1))).mergeSort
    (fun a b => decide (a.1 ≤ b.1))).take r

/-- The result-collection loop of `search_similar`: keeps each neighbour whose
raw position is below the length of the record list and whose distance is
strictly below the threshold, pairing the distance with the record at that
position. -/
def collectResults (memories : List MemoryEntry) (threshold : ℚ) :
    List (ℚ × Nat) → List (ℚ × MemoryEntry)
  | [] => []
  | (d, i) :: rest =>
    if h : i < memories.length ∧ d < threshold then
      (d, memories.get ⟨i, h.1⟩) :: collectResults memories threshold rest
    else collectResults memories threshold rest

/-- `SceneMemory.search_similar` with the distances retained: embeds the query,
asks the index for the `min k (len memories)` nearest neighbours and filters by
the similarity threshold. -/
def search_similar_pairs (s : SceneMemoryState) (instruction : String) (k : Nat) :
    List (ℚ × MemoryEntry) :=
  collectResults s.memories s.similarity_threshold
    (knnSearch (simple_embed instruction) (min k s.memories.length) s.indexEntries)

/-- `SceneMemory.search_similar`: the matched records in retrieval order. -/
def search_similar (s : SceneMemoryState) (instruction : String) (k : Nat) :
    List MemoryEntry :=
  (search_similar_pairs s instruction k).map Prod.snd

lemma collectResults_mem (mems : List MemoryEntry) (thr : ℚ) :
    ∀ (pairs : List (ℚ × Nat)) (y : ℚ × MemoryEntry), y ∈ collectResults mems thr pairs →
      ∃ p ∈ pairs, p.1 = y.1 ∧ y.1 < thr ∧
        ∃ h : p.2 < mems.length, y.2 = mems.get ⟨p.2, h⟩ := by
  intro pairs
  induction pairs with
  | nil => intro y hy; simp [collectResults] at hy
  | cons p rest ih =>
    intro y hy
    obtain ⟨d, i⟩ := p
    rw [collectResults] at hy
    by_cases h : i < mems.length ∧ d < thr
    · rw [dif_pos h] at hy
      rcases List.mem_cons.mp hy with h1 | h1
      · exact ⟨(d, i), List.mem_cons_self _ _, by rw [h1], by rw [h1]; exact h.2,
          h.1, by rw [h1]⟩
      · obtain ⟨q, hq, hrest⟩ := ih y h1
        exact ⟨q, List.mem_cons_of_mem _ hq, hrest⟩
    · rw [dif_neg h] at hy
      obtain ⟨q, hq, hrest⟩ := ih y hy
      exact ⟨q, List.mem_cons_of_mem _ hq, hrest⟩

lemma collectResults_length_le (mems : List MemoryEntry) (thr : ℚ) :
    ∀ pairs : List (ℚ × Nat), (collectResults mems thr pairs).length ≤ pairs.length := by
  intro pairs
  induction pairs with
  | nil => simp [collectResults]
  | cons p rest ih =>
    obtain ⟨d, i⟩ := p
    rw [collectResults]
    by_cases h : i < mems.length ∧ d < thr
    · rw [dif_pos h]
      simpa using ih
    · rw [dif_neg h]
      exact Nat.le_succ_of_le ih

lemma collectResults_pairwise (mems : List MemoryEntry) (thr : ℚ) :
    ∀ pairs : List (ℚ × Nat),
      List.Pairwise (fun a b : ℚ × Nat => a.1 ≤ b.1) pairs →
      List.Pairwise (fun a b : ℚ × MemoryEntry => a.1 ≤ b.1)
        (collectResults mems thr pairs) := by
  intro pairs
  induction pairs with
  | nil => intro _; simp [collectResults]
  | cons p rest ih =>
    intro hp
    obtain ⟨d, i⟩ := p
    obtain ⟨hhead, htail⟩ := List.pairwise_cons.mp hp
    rw [collectResults]
    by_cases h : i < mems.length ∧ d < thr
    · rw [dif_pos h]
      refine List.pairwise_cons.mpr ⟨?_, ih htail⟩
      intro z hz
      obtain ⟨q, hq, hq1, _, _⟩ := collectResults_mem mems thr rest z hz
      have := hhead q hq
      simpa [hq1] using this
    · rw [dif_neg h]
      exact ih htail

lemma knnSearch_sorted (query : Embedding) (r : Nat) (entries : List Embedding) :
    List.Pairwise (fun a b : ℚ × Nat => a.1 ≤ b.1) (knnSearch query r entries) := by
  apply List.Pairwise.sublist (List.take_sublist _ _)
  have hs := @List.sorted_mergeSort (ℚ × Nat)
    (fun a b => decide (a.1 ≤ b.1))
    (fun a b c hab hbc => by
      simp only [decide_eq_true_eq] at *
      exact le_trans hab hbc)
    (fun a b => by
      simp only [Bool.or_eq_true, decide_eq_true_eq]
      exact le_total a.1 b.1)
    (entries.enum.map (fun p => (sqDist query p.2, p.1)))
  exact hs.imp (fun h => by simpa using h)

lemma knnSearch_length (query : Embedding) (r : Nat) (entries : List Embedding) :
    (knnSearch query r entries).length = min r entries.length := by
  unfold knnSearch
  rw [List.length_take, (List.mergeSort_perm _ _).length_eq, List.length_map,
    List.enum_length]

lemma knnSearch_mem (query : Embedding) (r : Nat) (entries : List Embedding) :
    ∀ p ∈ knnSearch query r entries,
      ∃ h : p.2 < entries.length, p.1 = sqDist query (entries.get ⟨p.2, h⟩) := by
  intro p hp
  have h1 : p ∈ (entries.enum.map (fun p => (sqDist query p.2, p.1))).mergeSort
      (fun a b => decide (a.1 ≤ b.1)) := List.mem_of_mem_take hp
  have h2 : p ∈ entries.enum.map (fun p => (sqDist query p.2, p.1)) :=
    (List.mergeSort_perm _ _).mem_iff.mp h1
  obtain ⟨q, hq, heq⟩ := List.mem_map.mp h2
  obtain ⟨i, e⟩ := q
  have henum : (i, e) ∈ List.enumFrom 0 entries := by simpa [List.enum] using hq
  obtain ⟨-, hil, hee⟩ := List.mem_enumFrom henum
  have hi : i < entries.length := by simpa using hil
  have hp2 : p.2 = i := by rw [← heq]
  have hp1 : p.1 = sqDist query e := by rw [← heq]
  refine ⟨by rw [hp2]; exact hi, ?_⟩
  rw [hp1, hee]
  congr 1
  simp [List.get_eq_getElem, hp2]

/-- C2: `search_similar(instruction, k)` returns at most `k` results — the
second projections of distance-record pairs — every pair's distance is strictly
below `similarity_threshold` and equals the squared Euclidean distance between
the query embedding and the returned record's embedding, the pairs are in
non-decreasing distance order, and the index is queried for exactly
`min k (stored count)` nearest neighbours.  The hypothesis is the index-to-list
correspondence invariant maintained by construction and insertion. -/
theorem search_similar_spec (s : SceneMemoryState)
    (hidx : s.indexEntries = s.memories.map (fun m => simple_embed m.instruction))
    (instruction : String) (k : Nat) :
    (search_similar s instruction k).length ≤ k ∧
    search_similar s instruction k = (search_similar_pairs s instruction k).map Prod.snd ∧
    (∀ p ∈ search_similar_pairs s instruction k,
      p.1 < s.similarity_threshold ∧
      p.1 = sqDist (simple_embed instruction) (simple_embed p.2.instruction)) ∧
    List.Pairwise (fun a b : ℚ × MemoryEntry => a.1 ≤ b.1)
      (search_similar_pairs s instruction k) ∧
    (knnSearch (simple_embed instruction) (min k s.memories.length) s.indexEntries).length =
      min k s.memories.length := by
  refine ⟨?_, rfl, ?_, ?_, ?_⟩
  · unfold search_similar search_similar_pairs
    rw [List.length_map]
    calc (collectResults s.memories s.similarity_threshold
          (knnSearch (simple_embed instruction) (min k s.memories.length)
            s.indexEntries)).length
        ≤ (knnSearch (simple_embed instruction) (min k s.memories.length)
            s.indexEntries).length := collectResults_length_le _ _ _
      _ = min (min k s.memories.length) s.indexEntries.length := knnSearch_length _ _ _
      _ ≤ k := by omega
  · intro p hp
    unfold search_similar_pairs at hp
    obtain ⟨q, hq, hq1, hthr, hlt, hget⟩ := collectResults_mem _ _ _ p hp
    refine ⟨hthr, ?_⟩
    obtain ⟨hlen, hdist⟩ := knnSearch_mem _ _ _ q hq
    rw [← hq1, hdist]
    congr 1
    rw [hget]
    have : s.indexEntries.get ⟨q.2, hlen⟩ =
        simple_embed ((s.memories.get ⟨q.2, hlt⟩).instruction) := by
      have := List.get_of_eq hidx ⟨q.2, hlen⟩
      rw [this]
      simp [List.get_eq_getElem, List.getElem_map]
    rw [this]
  · exact collectResults_pairwise _ _ _ (knnSearch_sorted _ _ _)
  · rw [knnSearch_length, hidx, List.length_map]
    omega

/-- A store holding one record whose index matches its record list. -/
def storeW : SceneMemoryState :=
  ⟨1000, 8 / 10, [mkMemoryEntry "a" planA vrA], [simple_embed "a"],
    [mkMemoryEntry "a" planA vrA]⟩

/-- C2 witness: the search specification instantiated at a one-record store
with the index-correspondence hypothesis discharged definitionally. -/
theorem search_similar_spec_witness :
    (search_similar storeW "ab" 3).length ≤ 3 ∧
    search_similar storeW "ab" 3 = (search_similar_pairs storeW "ab" 3).map Prod.snd ∧
    (∀ p ∈ search_similar_pairs storeW "ab" 3,
      p.1 < storeW.similarity_threshold ∧
      p.1 = sqDist (simple_embed "ab") (simple_embed p.2.instruction)) ∧
    List.Pairwise (fun a b : ℚ × MemoryEntry => a.1 ≤ b.1)
      (search_similar_pairs storeW "ab" 3) ∧
    (knnSearch (simple_embed "ab") (min 3 storeW.memories.length)
      storeW.indexEntries).length = min 3 storeW.memories.length :=
  search_similar_spec storeW rfl "ab" 3

/-- C8: `search_similar` against a store holding zero records returns the empty
sequence, for every query and every `k` (the model is total, so no error is
raised: the index is queried for `min k 0 = 0` neighbours). -/
theorem search_similar_empty_store (mh : Nat) (thr : ℚ) (idx : List Embedding)
    (d : List MemoryEntry) (instruction : String) (k : Nat) :
    search_similar ⟨mh, thr, [], idx, d⟩ instruction k = [] := by
  simp [search_similar, search_similar_pairs, knnSearch, collectResults]

/-- C10: every element returned by the result-collection loop — and hence by
`search_similar` — is one of the currently stored records, for an arbitrary
list of neighbour pairs reported by the index query: the guard
`idx < len(self.memories)` makes positions at or past the end of the record
list be skipped rather than accessed. -/
theorem search_similar_results_stored (s : SceneMemoryState) (instruction : String)
    (k : Nat) :
    (∀ (pairs : List (ℚ × Nat)) (y : ℚ × MemoryEntry),
      y ∈ collectResults s.memories s.similarity_threshold pairs → y.2 ∈ s.memories) ∧
    (∀ x ∈ search_similar s instruction k, x ∈ s.memories) := by
  constructor
  · intro pairs y hy
    obtain ⟨q, _, _, _, hlt, hget⟩ := collectResults_mem _ _ _ y hy
    rw [hget]
    exact List.get_mem _ _ _
  · intro x hx
    unfold search_similar at hx
    obtain ⟨y, hy, rfl⟩ := List.mem_map.mp hx
    obtain ⟨q, _, _, _, hlt, hget⟩ := collectResults_mem _ _ _ y hy
    rw [hget]
    exact List.get_mem _ _ _

/-- C10 witness: the collection loop applied to a concrete neighbour list over
the one-record store yields an element of the stored record list. -/
theorem search_similar_results_stored_witness :
    mkMemoryEntry "a" planA vrA ∈ storeW.memories :=
  (search_similar_results_stored storeW "q" 5).1 [(0, 0)]
    (0, mkMemoryEntry "a" planA vrA) (by
      have hcond : (0 : ℕ) < storeW.memories.length ∧
          (0 : ℚ) < storeW.similarity_threshold :=
        ⟨by simp [storeW], by norm_num [storeW]⟩
      simp only [collectResults]
      rw [dif_pos hcond]
      exact List.mem_cons_self _ _)

/-- Python `a or b` over optional integers as produced by
`vr.get("score") or vr.get("overall_score")`: both `None` and `0` are falsy,
so a present score of `0` falls through to the fallback. -/
def pyOrInt (a b : Option ℤ) : Option ℤ :=
  match a with
  | some v => if v = 0 then b else some v
  | none => b

/-- Python `a or b` over optional strings as produced by
`vr.get("suggestion") or vr.get("suggestions")`: both `None` and the empty
string are falsy. -/
def pyOrStr (a b : Option String) : Option String :=
  match a with
  | some s => if s.isEmpty then b else some s
  | none => b

/-- The problem line rendered by `reflect_on_memory` for one qualifying
attempt. -/
def problemLine (score : ℤ) (suggestion : String) : String :=
  "分数: " ++ toString score ++ ", 问题/建议: " ++ suggestion

/-- The per-record test of `reflect_on_memory`: the effective score
(`score or overall_score`) must be present and strictly below 85 and the
effective suggestion (`suggestion or suggestions`) must be truthy. -/
def qualifyingLine (vr : VerificationResult) : Option String :=
  match pyOrInt vr.score vr.overall_score, pyOrStr vr.suggestion vr.suggestions with
  | some v, some s => if v < 85 ∧ ¬ s.isEmpty then some (problemLine v s) else none
  | _, _ => none

/-- `reflect_on_memory` from `main.py`: returns the empty string for an empty
store, otherwise collects a problem line per qualifying record (in storage
order, via list append as in the Python loop) and joins them under the fixed
preamble — or returns the empty string when no record qualifies. -/
def reflect_on_memory (mems : List MemoryEntry) : String :=
  if mems.isEmpty then ""
  else
    let problems := mems.foldl (fun acc m =>
      match qualifyingLine m.verification_result with
      | some line => acc ++ [line]
      | none => acc) []
    if problems.isEmpty then ""
    else "请避免以下历史问题：\n" ++ String.intercalate "\n" problems

lemma foldl_lines_eq_filterMap (f : MemoryEntry → Option String) :
    ∀ (mems : List MemoryEntry) (acc : List String),
      mems.foldl (fun acc m =>
        match f m with
        | some line => acc ++ [line]
        | none => acc) acc = acc ++ mems.filterMap f := by
  intro mems
  induction mems with
  | nil => intro acc; simp
  | cons m rest ih =>
    intro acc
    simp only [List.foldl_cons, List.filterMap_cons]
    cases hf : f m with
    | none => rw [ih]
    | some line =>
      rw [ih]
      simp [List.append_assoc]

/-- C4 (amended: the effective score is `score` when nonzero, else
`overall_score`, and the effective suggestion is `suggestion` when non-empty,
else `suggestions`): `reflect_on_memory` renders one line per stored record
whose effective score is present and strictly below 85 and whose effective
suggestion is present and non-empty, in storage order, joined under the fixed
preamble; it returns the empty string when no record qualifies — in particular
whenever every record's effective score, when present, is at least 85. -/
theorem reflect_on_memory_spec (mems : List MemoryEntry) :
    reflect_on_memory mems =
      (let lines := mems.filterMap (fun m => qualifyingLine m.verification_result)
       if lines.isEmpty then ""
       else "请避免以下历史问题：\n" ++ String.intercalate "\n" lines) ∧
    ((∀ m ∈ mems, ∀ v : ℤ,
        pyOrInt m.verification_result.score m.verification_result.overall_score = some v →
        85 ≤ v) →
      reflect_on_memory mems = "") := by
  have main : reflect_on_memory mems =
      (let lines := mems.filterMap (fun m => qualifyingLine m.verification_result)
       if lines.isEmpty then ""
       else "请避免以下历史问题：\n" ++ String.intercalate "\n" lines) := by
    unfold reflect_on_memory
    by_cases hemp : mems.isEmpty
    · have : mems = [] := by simpa [List.isEmpty_iff] using hemp
      subst this
      simp
    · rw [if_neg hemp, foldl_lines_eq_filterMap]
      simp
  refine ⟨main, ?_⟩
  intro hall
  have hnone : ∀ m ∈ mems, qualifyingLine m.verification_result = none := by
    intro m hm
    unfold qualifyingLine
    cases hs : pyOrInt m.verification_result.score m.verification_result.overall_score with
    | none =>
      cases pyOrStr m.verification_result.suggestion m.verification_result.suggestions <;> rfl
    | some v =>
      have h85 := hall m hm v hs
      cases pyOrStr m.verification_result.suggestion m.verification_result.suggestions with
      | none => rfl
      | some str =>
        have hneg : ¬ (v < 85 ∧ ¬ str.isEmpty = true) := by
          intro hcontra
          omega
        show (if v < 85 ∧ ¬ str.isEmpty = true then some (problemLine v str) else none) = none
        rw [if_neg hneg]
  rw [main]
  have : mems.filterMap (fun m => qualifyingLine m.verification_result) = [] :=
    List.filterMap_eq_nil_iff.mpr hnone
  simp [this]

/-- A verification payload with a high score and a suggestion. -/
def vr90 : VerificationResult := ⟨some 90, none, some "x", none⟩

/-- C4 witness: over a store whose only record carries score 90 the synthesis
returns the empty string; the hypothesis (every present effective score is at
least 85) is discharged at the concrete record. -/
theorem reflect_on_memory_spec_witness :
    reflect_on_memory [mkMemoryEntry "a" planA vr90] = "" :=
  (reflect_on_memory_spec [mkMemoryEntry "a" planA vr90]).2 (by
    intro m hm v hv
    rw [List.mem_singleton] at hm
    subst hm
    simp [mkMemoryEntry, vr90, pyOrInt] at hv
    omega)

/-- A verification payload in the shape the claim quantifies over: numeric
score 0 (strictly below 85) and a non-empty suggestion. -/
def vrZero : VerificationResult := ⟨some 0, none, some "fix overlap", none⟩

/-- C4 counterexample: this record carries a numeric score 0 strictly below 85
and a non-empty suggestion, yet the synthesized guidance is empty — the record
is not rendered, because Python's `vr.get("score") or vr.get("overall_score")`
treats the score 0 as falsy and yields `None`. -/
theorem reflect_zero_score_counterexample :
    vrZero.score = some 0 ∧ (0 : ℤ) < 85 ∧ vrZero.suggestion = some "fix overlap" ∧
    "fix overlap".isEmpty = false ∧
    reflect_on_memory [mkMemoryEntry "a" planA vrZero] = "" := by
  refine ⟨rfl, by norm_num, rfl, rfl, rfl⟩

/-- The VerificationUnavailable shape of §7: zero score, error text as the
suggestion. -/
def vrUnavailable : VerificationResult :=
  ⟨some 0, none, some "Verifier call failed", none⟩

/-- C5: evaluating `reflect_on_memory` at the VerificationUnavailable failing
input — a record with score 0 and the raw error text as suggestion — yields the
empty string: the attempt is silently skipped instead of contributing its
suggestion to the guidance, contradicting the documented error-handling
design. -/
theorem reflect_skips_zero_score_attempt :
    vrUnavailable.score = some 0 ∧
    vrUnavailable.suggestion = some "Verifier call failed" ∧
    reflect_on_memory [mkMemoryEntry "b" planA vrUnavailable] = "" :=
  ⟨rfl, rfl, rfl⟩

/-- Lookup of a required dictionary key, as in `scene_plan["objects"]` or
`obj["type"]`: a `KeyError` when the key is absent. -/
def pyGet {α : Type*} (v : Option α) (key : String) : Except String α :=
  match v with
  | some x => .ok x
  | none => .error ("KeyError: " ++ key)

/-- Python counter update `d[k] = d.get(k, 0) + 1` on a dict that preserves
first-insertion order. -/
def bumpCount : List (String × Nat) → String → List (String × Nat)
  | [], k => [(k, 1)]
  | (k', c) :: rest, k =>
    if k' = k then (k', c + 1) :: rest else (k', c) :: bumpCount rest k

/-- Python `sorted(d.items(), key=lambda x: x[1], reverse=True)`: a stable sort
by descending count. -/
def sort_by_freq (d : List (String × Nat)) : List (String × Nat) :=
  d.mergeSort (fun a b => decide (b.2 ≤ a.2))

/-- The aggregate returned by `analyze_patterns`. -/
structure Patterns where
  common_objects : List (String × Nat)
  common_styles : List (String × Nat)
  common_relationships : List (String × Nat)
deriving DecidableEq, Repr

/-- Shorthand for the three counter dictionaries threaded through the
aggregation loop. -/
abbrev CountAcc := List (String × Nat) × List (String × Nat) × List (String × Nat)

/-- The inner loops `for obj in ...: d[obj["type"]] = d.get(obj["type"], 0) + 1`:
counts the `type` of each item, raising a `KeyError` when an item lacks it. -/
def countTypes (d : List (String × Nat)) : List PlanItem → Except String (List (String × Nat))
  | [] => .ok d
  | o :: rest =>
    match o.type with
    | some t => countTypes (bumpCount d t) rest
    | none => .error "KeyError: type"

/-- One iteration of the `analyze_patterns` loop over a single record:
`scene_plan["objects"]` raises a `KeyError` when the key is absent, the style
count is guarded by `if "style" in scene_plan`, and relationships use
`scene_plan.get("relationships", [])`. -/
def analyzeStep (acc : CountAcc) (m : MemoryEntry) : Except String CountAcc :=
  match pyGet m.scene_plan.objects "objects" with
  | .error e => .error e
  | .ok objs =>
    match countTypes acc.1 objs with
    | .error e => .error e
    | .ok objects =>
      let styles := match m.scene_plan.style with
        | some st => bumpCount acc.2.1 st
        | none => acc.2.1
      match countTypes acc.2.2 (m.scene_plan.relationships.getD []) with
      | .error e => .error e
      | .ok relationships => .ok (objects, styles, relationships)

/-- The `for memory in self.memories` loop of `analyze_patterns`. -/
def analyzeLoop (acc : CountAcc) : List MemoryEntry → Except String CountAcc
  | [] => .ok acc
  | m :: rest =>
    match analyzeStep acc m with
    | .ok acc' => analyzeLoop acc' rest
    | .error e => .error e

/-- `SceneMemory.analyze_patterns`: empty aggregates for an empty store,
otherwise the loop over all records followed by the descending-frequency
sorts. -/
def analyze_patterns (mems : List MemoryEntry) : Except String Patterns :=
  if mems.isEmpty then .ok ⟨[], [], []⟩
  else
    match analyzeLoop ([], [], []) mems with
    | .error e => .error e
    | .ok (objects, styles, relationships) =>
      .ok ⟨sort_by_freq objects, sort_by_freq styles, sort_by_freq relationships⟩

/-- A scene plan for which the aggregation loop cannot raise: the `objects` key
is present and every object and relationship entry has a `type` key. -/
def planWellFormed (p : ScenePlan) : Prop :=
  p.objects.isSome ∧
  (∀ o ∈ p.objects.getD [], o.type.isSome) ∧
  (∀ r ∈ p.relationships.getD [], r.type.isSome)

instance (p : ScenePlan) : Decidable (planWellFormed p) := by
  unfold planWellFormed
  infer_instance

/-- Object types contributed by the stored records, in iteration order. -/
def objTypes (mems : List MemoryEntry) : List String :=
  mems.flatMap (fun m => (m.scene_plan.objects.getD []).filterMap (fun o => o.type))

/-- Style values contributed by the records that carry a `style` key. -/
def styleVals (mems : List MemoryEntry) : List String :=
  mems.filterMap (fun m => m.scene_plan.style)

/-- Relationship types contributed by the records, in iteration order. -/
def relTypes (mems : List MemoryEntry) : List String :=
  mems.flatMap (fun m => (m.scene_plan.relationships.getD []).filterMap (fun r => r.type))

lemma countTypes_ok (items : List PlanItem) :
    ∀ d : List (String × Nat), (∀ o ∈ items, o.type.isSome) →
      countTypes d items = .ok ((items.filterMap (fun o => o.type)).foldl bumpCount d) := by
  induction items with
  | nil => intro d _; rfl
  | cons o rest ih =>
    intro d hall
    have ho : o.type.isSome := hall o (List.mem_cons_self _ _)
    obtain ⟨t, ht⟩ := Option.isSome_iff_exists.mp ho
    simp only [countTypes, List.filterMap_cons, ht, List.foldl_cons]
    exact ih (bumpCount d t) (fun x hx => hall x (List.mem_cons_of_mem _ hx))

lemma analyzeStep_ok (m : MemoryEntry) (hwf : planWellFormed m.scene_plan)
    (acc : CountAcc) :
    analyzeStep acc m = .ok
      (((m.scene_plan.objects.getD []).filterMap (fun o => o.type)).foldl bumpCount acc.1,
       (match m.scene_plan.style with
        | some st => bumpCount acc.2.1 st
        | none => acc.2.1),
       ((m.scene_plan.relationships.getD []).filterMap (fun r => r.type)).foldl
         bumpCount acc.2.2) := by
  obtain ⟨hobj, hot, hrt⟩ := hwf
  obtain ⟨objs, hobjs⟩ := Option.isSome_iff_exists.mp hobj
  have hobjs' : m.scene_plan.objects.getD [] = objs := by rw [hobjs]; rfl
  rw [hobjs'] at hot
  unfold analyzeStep
  rw [hobjs]
  simp only [pyGet, Option.getD_some, countTypes_ok objs acc.1 hot,
    countTypes_ok _ acc.2.2 hrt]

lemma analyzeLoop_ok (mems : List MemoryEntry) :
    ∀ acc : CountAcc, (∀ m ∈ mems, planWellFormed m.scene_plan) →
      analyzeLoop acc mems = .ok
        ((objTypes mems).foldl bumpCount acc.1,
         (styleVals mems).foldl bumpCount acc.2.1,
         (relTypes mems).foldl bumpCount acc.2.2) := by
  induction mems with
  | nil =>
    intro acc _
    simp [analyzeLoop, objTypes, styleVals, relTypes]
  | cons m rest ih =>
    intro acc hall
    have hm := hall m (List.mem_cons_self _ _)
    have hrest : ∀ x ∈ rest, planWellFormed x.scene_plan :=
      fun x hx => hall x (List.mem_cons_of_mem _ hx)
    simp only [analyzeLoop, analyzeStep_ok m hm acc]
    rw [ih _ hrest]
    simp only [objTypes, styleVals, relTypes, List.flatMap_cons, List.filterMap_cons,
      List.foldl_append]
    cases hst : m.scene_plan.style with
    | none => rfl
    | some st => rfl

lemma sort_by_freq_sorted (d : List (String × Nat)) :
    List.Pairwise (fun a b : String × Nat => b.2 ≤ a.2) (sort_by_freq d) := by
  have hs := @List.sorted_mergeSort (String × Nat)
    (fun a b => decide (b.2 ≤ a.2))
    (fun a b c hab hbc => by
      simp only [decide_eq_true_eq] at *
      omega)
    (fun a b => by
      simp only [Bool.or_eq_true, decide_eq_true_eq]
      omega)
    d
  exact hs.imp (fun h => by simpa using h)

/-- C6 (amended: tolerance covers missing `style` and `relationships` only —
an entry whose payload lacks the `objects` substructure raises a `KeyError`):
for stores in which every record has the `objects` substructure (and typed
items), `analyze_patterns` succeeds and returns the three frequency-count lists
— object types, styles over the records that carry a style, relationship types
over the records that carry relationships — each sorted by non-increasing
frequency; records lacking `style` or `relationships` contribute nothing and
raise no error. -/
theorem analyze_patterns_spec (mems : List MemoryEntry)
    (hwf : ∀ m ∈ mems, planWellFormed m.scene_plan) :
    analyze_patterns mems =
      .ok ⟨sort_by_freq ((objTypes mems).foldl bumpCount []),
           sort_by_freq ((styleVals mems).foldl bumpCount []),
           sort_by_freq ((relTypes mems).foldl bumpCount [])⟩ ∧
    List.Pairwise (fun a b : String × Nat => b.2 ≤ a.2)
      (sort_by_freq ((objTypes mems).foldl bumpCount [])) ∧
    List.Pairwise (fun a b : String × Nat => b.2 ≤ a.2)
      (sort_by_freq ((styleVals mems).foldl bumpCount [])) ∧
    List.Pairwise (fun a b : String × Nat => b.2 ≤ a.2)
      (sort_by_freq ((relTypes mems).foldl bumpCount [])) := by
  refine ⟨?_, sort_by_freq_sorted _, sort_by_freq_sorted _, sort_by_freq_sorted _⟩
  unfold analyze_patterns
  by_cases hemp : mems.isEmpty
  · have : mems = [] := by simpa [List.isEmpty_iff] using hemp
    subst this
    simp [objTypes, styleVals, relTypes, sort_by_freq]
  · rw [if_neg hemp, analyzeLoop_ok mems ([], [], []) hwf]

/-- C6 counterexample: a record whose payload lacks the `objects` substructure
(the very shape `main.py` stores: `{"reasoning": ...}`) makes
`analyze_patterns` raise a `KeyError` instead of being skipped. -/
theorem analyze_patterns_missing_objects_counterexample :
    planA.objects = none ∧
    analyze_patterns [mkMemoryEntry "a" planA vrA] = .error "KeyError: objects" :=
  ⟨rfl, rfl⟩

/-- A plan with objects but no style and no relationships. -/
def planB : ScenePlan := ⟨some [⟨some "chair"⟩, ⟨some "chair"⟩, ⟨some "table"⟩], none, none⟩

/-- A plan with objects, a style and one relationship. -/
def planC : ScenePlan := ⟨some [⟨some "table"⟩], some "modern", some [⟨some "on_top"⟩]⟩

/-- A two-record store in which the first record lacks `style` and
`relationships`. -/
def memsW : List MemoryEntry := [mkMemoryEntry "a" planB vrA, mkMemoryEntry "b" planC vrA]

/-- C6 witness: the specification instantiated at a concrete store whose first
record lacks the `style` and `relationships` substructures — the analysis
succeeds, skipping them. -/
theorem analyze_patterns_spec_witness :
    analyze_patterns memsW =
      .ok ⟨sort_by_freq ((objTypes memsW).foldl bumpCount []),
           sort_by_freq ((styleVals memsW).foldl bumpCount []),
           sort_by_freq ((relTypes memsW).foldl bumpCount [])⟩ ∧
    List.Pairwise (fun a b : String × Nat => b.2 ≤ a.2)
      (sort_by_freq ((objTypes memsW).foldl bumpCount [])) ∧
    List.Pairwise (fun a b : String × Nat => b.2 ≤ a.2)
      (sort_by_freq ((styleVals memsW).foldl bumpCount [])) ∧
    List.Pairwise (fun a b : String × Nat => b.2 ≤ a.2)
      (sort_by_freq ((relTypes memsW).foldl bumpCount [])) :=
  analyze_patterns_spec memsW (by decide)

/-- The two continuations available after the VERIFY step of `main`'s
feedback loop. -/
inductive LoopDecision where
  | done
  | reflect
deriving DecidableEq, Repr

/-- The decision taken after VERIFY in `main.py`:
`if score is not None and score >= 85: break` ends the loop (DONE); any other
outcome falls through to reflection and re-planning. -/
def verify_decision (score : Option ℤ) : LoopDecision :=
  match score with
  | some v => if 85 ≤ v then .done else .reflect
  | none => .reflect

/-- C7: the orchestrator terminates successfully after VERIFY exactly when the
score is present and at least 85; an absent score continues to REFLECT — like a
low score, and in particular like a literal zero score, it never terminates the
loop. -/
theorem verify_decision_spec :
    (∀ score : Option ℤ,
      verify_decision score = LoopDecision.done ↔ ∃ v : ℤ, score = some v ∧ 85 ≤ v) ∧
    verify_decision none = LoopDecision.reflect ∧
    verify_decision (some 85) = LoopDecision.done ∧
    verify_decision (some 84) = LoopDecision.reflect ∧
    verify_decision (some 0) = LoopDecision.reflect := by
  refine ⟨?_, rfl, rfl, rfl, rfl⟩
  intro score
  cases score with
  | none => simp [verify_decision]
  | some v =>
    by_cases h : 85 ≤ v
    · simp [verify_decision, h]
    · simp [verify_decision, h]
